import Mathlib

set_option autoImplicit false

namespace DevChat

/-- Conversion of a string literal to its character list. -/
def toL (s : String) : List Char := s.data

/-- Modelled from the spec: the `Message` value consumed by the Prompt core
(src/devchat/message.py is not under src/).  Fields per spec section 3: a type
tag, nullable textual content, an optional structured function-call payload
(modelled as its JSON rendering), and an optional finish reason. -/
structure Message where
  type : String
  content : Option String
  function_call : Option String
  finish_reason : Option String
deriving DecidableEq

/-- Modelled from the spec: `Message.function_call_to_json` returns the JSON
rendering of the function-call payload, and the empty string when there is no
function call (spec section 9: preserve "empty string, not null"). -/
def Message.function_call_to_json (m : Message) : String := m.function_call.getD ("")

/-- The `Prompt` dataclass of src/devchat/prompt.py.  The buckets of
`_new_messages` and `_history_messages` are modelled as separate fields
(`instruct`, `request`, `new_context`, `responses`, `history_context`,
`history_chat`), mirroring the fixed dictionary keys of the default factories
(prompt.py lines 35-44).  `responses` entries are `Option Message` because the
source guards `not self.responses[index]` against unset entries.  `parents`
models the plain instance attribute assigned by `Assistant.make_prompt`
(assistant.py line 35); it is not a dataclass field, so `asdict` never sees
it. -/
structure Prompt where
  model : String
  user_name : String
  user_email : String
  instruct : List Message
  request : Option Message
  new_context : List Message
  responses : List (Option Message)
  history_context : List Message
  history_chat : List Message
  parent : Option String
  references : List String
  timestamp : Option Nat
  request_tokens : Nat
  response_tokens : Nat
  hash : Option String
  parents : List String
deriving DecidableEq

/-- The `_check_complete` method (prompt.py lines 52-69): the request must be
set, the responses non-empty, and both token counts non-zero (Python
truthiness on each operand). -/
def Prompt.check_complete (p : Prompt) : Bool :=
  if p.request.isNone || p.responses.isEmpty then false
  else if p.request_tokens == 0 || p.response_tokens == 0 then false
  else true

/-- Fuel driven accumulation of the decimal digits of a natural number. -/
def decCharsGo : Nat → Nat → List Char
  | 0, _ => []
  | f + 1, m =>
    if m < 10 then [Nat.digitChar m]
    else decCharsGo f (m / 10) ++ [Nat.digitChar (m % 10)]

/-- Decimal rendering of a natural number, as Python `repr` prints an
`int`. -/
def decChars (n : Nat) : List Char := decCharsGo (n + 1) n

/-- Python `repr` quote selection for a string: a single quote, unless the
string contains a single quote and no double quote. -/
def pyQuote (s : List Char) : Char :=
  if s.contains '\'' && !(s.contains '"') then '"' else '\''

/-- Python `repr` escaping of one character relative to the active quote: the
backslash, the quote character, and the control characters newline, carriage
return and tab are escaped; every other character is literal (other
non-printable characters are outside the modelled domain). -/
def escChar (q c : Char) : List Char :=
  if c = '\\' then ['\\', '\\']
  else if c = q then ['\\', q]
  else if c = '\n' then ['\\', 'n']
  else if c = '\r' then ['\\', 'r']
  else if c = '\t' then ['\\', 't']
  else [c]

/-- Escape a whole character list for Python `repr`. -/
def escBody (q : Char) : List Char → List Char
  | [] => []
  | c :: t => escChar q c ++ escBody q t

/-- Python `repr` of a string: quote, escaped body, quote. -/
def pyStrChars (s : String) : List Char :=
  pyQuote s.data :: escBody (pyQuote s.data) s.data ++ [pyQuote s.data]

/-- Python `repr` of an optional string: `None` or the quoted string. -/
def optStrChars : Option String → List Char
  | none => toL ("None")
  | some s => pyStrChars s

/-- Python `repr` of an optional integer field such as `_timestamp`. -/
def optNatChars : Option Nat → List Char
  | none => toL ("None")
  | some n => decChars n

/-- Comma-space separated join, as Python renders the elements of a list,
tuple or dictionary body inside `repr`. -/
def sepJoin : List (List Char) → List Char
  | [] => []
  | [a] => a
  | a :: b :: t => a ++ toL (", ") ++ sepJoin (b :: t)

/-- Python `repr` of a list of strings, e.g. the `references` field. -/
def strListChars (l : List String) : List Char :=
  '[' :: sepJoin (l.map pyStrChars) ++ [']']

/-- The dictionary `dataclasses.asdict` produces for a `Message`, rendered by
Python `repr`.  Insertion order follows the field declaration order of the
spec's Message: type, content, function_call, finish_reason. -/
def msgChars (m : Message) : List Char :=
  toL ("\x7b'type': ") ++ pyStrChars m.type
    ++ toL (", 'content': ") ++ optStrChars m.content
    ++ toL (", 'function_call': ") ++ optStrChars m.function_call
    ++ toL (", 'finish_reason': ") ++ optStrChars m.finish_reason
    ++ toL ("\x7d")

/-- Python `repr` of an optional message slot such as `request`. -/
def optMsgChars : Option Message → List Char
  | none => toL ("None")
  | some m => msgChars m

/-- Python `repr` of a list of messages. -/
def msgListChars (l : List Message) : List Char :=
  '[' :: sepJoin (l.map msgChars) ++ [']']

/-- Python `repr` of the responses list, whose slots may be unset. -/
def optMsgListChars (l : List (Option Message)) : List Char :=
  '[' :: sepJoin (l.map optMsgChars) ++ [']']

/-- Python `repr` of the `_new_messages` dictionary (default-factory insertion
order: instruct, request, context, responses; the message-type keys of the
missing `Message` class are modelled from the spec as the plain strings
`instruct` and `context`). -/
def newMessagesChars (p : Prompt) : List Char :=
  toL ("\x7b'instruct': ") ++ msgListChars p.instruct
    ++ toL (", 'request': ") ++ optMsgChars p.request
    ++ toL (", 'context': ") ++ msgListChars p.new_context
    ++ toL (", 'responses': ") ++ optMsgListChars p.responses
    ++ toL ("\x7d")

/-- Python `repr` of the `_history_messages` dictionary (insertion order:
context, chat). -/
def histMessagesChars (p : Prompt) : List Char :=
  toL ("\x7b'context': ") ++ msgListChars p.history_context
    ++ toL (", 'chat': ") ++ msgListChars p.history_chat
    ++ toL ("\x7d")

/-- The dataclass field names of `Prompt` in declaration order (prompt.py
lines 32-50). -/
def declFieldNames : List String :=
  ["model", "user_name", "user_email", "_new_messages", "_history_messages",
   "parent", "references", "_timestamp", "_request_tokens",
   "_response_tokens", "_hash"]

/-- The field names after `data.pop('_hash')` and `sorted(data.items())` in
`finalize_hash` (prompt.py lines 195-197). -/
def canonicalKeys : List String :=
  ["_history_messages", "_new_messages", "_request_tokens",
   "_response_tokens", "_timestamp", "model", "parent", "references",
   "user_email", "user_name"]

/-- Python `repr` of the value stored under one dataclass field name. -/
def fieldRepr (p : Prompt) : String → List Char
  | "model" => pyStrChars p.model
  | "user_name" => pyStrChars p.user_name
  | "user_email" => pyStrChars p.user_email
  | "_new_messages" => newMessagesChars p
  | "_history_messages" => histMessagesChars p
  | "parent" => optStrChars p.parent
  | "references" => strListChars p.references
  | "_timestamp" => optNatChars p.timestamp
  | "_request_tokens" => decChars p.request_tokens
  | "_response_tokens" => decChars p.response_tokens
  | _ => []

/-- One `(name, value)` pair of the sorted item tuple in `finalize_hash`. -/
def itemChars (p : Prompt) (k : String) : List Char :=
  '(' :: pyStrChars k ++ toL (", ") ++ fieldRepr p k ++ [')']

/-- The canonical serialized form `str(tuple(sorted(data.items())))` of
`finalize_hash` (prompt.py line 197): the `repr` of the tuple of
`(field name, field value)` pairs, sorted by field name, with the hash field
removed. -/
def canonicalChars (p : Prompt) : List Char :=
  '(' :: sepJoin (canonicalKeys.map (itemChars p)) ++ [')']

/-- Model of `hashlib.sha256(string.encode('utf-8')).hexdigest()` (prompt.py
line 198).  The digest is treated as an ideal collision-free (injective)
function of the serialized string; its concrete value is the serialized
string itself, which keeps the model executable while preserving exactly the
equalities and inequalities an ideal cryptographic digest provides. -/
def sha256hex (l : List Char) : String := String.mk l

/-- Modelled from the spec: the token cost of a response slot; the spec fixes
only the contract that a count is produced, so the cost of a message is
modelled as the length of its content. -/
def msgTokens (m : Option Message) : Nat :=
  (m.map (fun x => (x.content.getD ("")).length)).getD 0

/-- Modelled from the spec: the abstract `_count_response_tokens` hook
(prompt.py lines 95-99; the concrete backend subclasses are not under src/).
Token counts are "zero until computed" (spec section 3), so a count that is
already non-zero is kept; otherwise the hook computes the response token
count from the accumulated responses. -/
def count_response_tokens (p : Prompt) : Prompt :=
  if p.response_tokens == 0 then
    { p with response_tokens := (p.responses.map msgTokens).sum }
  else p

/-- Python truthiness of an optional string (the `if self._hash:` test):
`None` and the empty string are falsy. -/
def truthyOptStr : Option String → Bool
  | none => false
  | some s => !(s.isEmpty)

/-- The `finalize_hash` method (prompt.py lines 180-199), as state passing:
when `_check_complete` fails the hash is set to `None`; then, exactly as in
the source, the method only returns early when `self._hash` is truthy, and
otherwise calls `_count_response_tokens`, serializes the sorted field items
with the hash field removed, and stores the SHA-256 hex digest of the
serialized form. -/
def finalize_hash (p : Prompt) : Option String × Prompt :=
  let p1 := if p.check_complete then p else { p with hash := none }
  if truthyOptStr p1.hash then (p1.hash, p1)
  else
    let p2 := count_response_tokens p1
    let d := sha256hex (canonicalChars p2)
    (some d, { p2 with hash := some d })

/-- Python exceptions that the embedded code can raise. -/
inductive PyErr where
  | attributeError (name : String)
  | typeError
  | indexError
  | valueError (msg : String)
deriving DecidableEq

/-- Python `str()` of an optional string, as interpolated by an f-string:
`None` renders as the four letters None. -/
def pyStr : Option String → String
  | none => "None"
  | some s => s

/-- Modelled from the spec: `user_id(name, email)[0]` from the missing
devchat.utils produces the requester identifier for display. -/
def user_id (name email : String) : String := name ++ " <" ++ email ++ ">"

/-- Modelled from the spec: the localized timestamp rendering
`unix_to_local_datetime(...).strftime(...)` from the missing devchat.utils;
only its determinism matters to the claims. -/
def strftimeLocal : Option Nat → String
  | none => "None"
  | some n => String.mk (decChars n)

/-- The `formatted_header` method (prompt.py lines 201-208): the observable
header contract "User: <id>, Date: <localized-timestamp>" with a trailing
blank line. -/
def Prompt.formatted_header (p : Prompt) : String :=
  "User: " ++ user_id p.user_name p.user_email ++ "\n"
    ++ "Date: " ++ strftimeLocal p.timestamp ++ "\n\n"

/-- Python sequence indexing with negative-index wrap-around: valid for
`-len <= i < len`, IndexError otherwise. -/
def pyIndex {α : Type} (l : List α) (i : Int) : Except PyErr α :=
  let j : Int := if i < 0 then i + l.length else i
  if h : 0 ≤ j ∧ j.toNat < l.length then .ok (l.get ⟨j.toNat, h.2⟩)
  else .error .indexError

/-- The `formatted_response` method (prompt.py lines 210-237).  The only
range check is `index >= len(self.responses)`; when it passes, the response
is fetched with Python indexing semantics, so a negative index wraps around
(and an index below `-len` raises IndexError).  An unset response slot is
falsy and yields `None` (logged in the source).  The rendering follows the
observable text contract of spec section 6. -/
def Prompt.formatted_response (p : Prompt) (index : Int) : Except PyErr (Option String) :=
  let header := p.formatted_header
  if index ≥ (p.responses.length : Int) then .ok none
  else
    match pyIndex p.responses index with
    | .error e => .error e
    | .ok none => .ok none
    | .ok (some m) =>
      let s1 := header ++ (if truthyOptStr m.content then (m.content.getD ("")) ++ "\n\n" else "")
      let s2 := s1 ++ (if m.finish_reason == some ("function_call") then m.function_call_to_json else "")
      let s3 := s2 ++ "\n\nfinish_reason: " ++ pyStr m.finish_reason ++ "\n\n"
      .ok (some (s3 ++ "prompt " ++ pyStr p.hash))

/-- The summary dictionary returned by `shortlog` (prompt.py lines 249-259).
The `responses` entry is a Python list built with `+=` from strings, hence a
list of single characters; `context` holds the `to_dict()` renderings of the
context messages, modelled as the messages themselves (devchat.message is
not under src/). -/
structure ShortlogEntry where
  user : String
  date : Option Nat
  context : List Message
  request : Option String
  responses : List Char
  request_tokens : Nat
  response_tokens : Nat
  hash : Option String
  parent : Option String
deriving DecidableEq

/-- The response-concatenation loop of `shortlog` (prompt.py lines 244-247):
`responses` starts as the empty Python list and each iteration extends it
with `+=` applied to a string, which appends the string's characters one by
one; an unset response slot raises AttributeError on `.content`. -/
def shortlogResponses : List (Option Message) → Except PyErr (List Char)
  | [] => .ok []
  | none :: _ => .error (.attributeError ("content"))
  | some m :: t =>
    match shortlogResponses t with
    | .error e => .error e
    | .ok cs => .ok (((m.content.getD ("")) ++ m.function_call_to_json).data ++ cs)

/-- The `shortlog` method (prompt.py lines 239-259): raises ValueError when
the request is unset or the responses are empty, otherwise returns the
summary dictionary. -/
def Prompt.shortlog (p : Prompt) : Except PyErr ShortlogEntry :=
  if p.request.isNone || p.responses.isEmpty then
    .error (.valueError ("Prompt is incomplete for shortlog."))
  else
    match shortlogResponses p.responses with
    | .error e => .error e
    | .ok cs =>
      .ok { user := user_id p.user_name p.user_email
            date := p.timestamp
            context := p.new_context
            request := p.request.bind Message.content
            responses := cs
            request_tokens := p.request_tokens
            response_tokens := p.response_tokens
            hash := p.hash
            parent := p.parent }

/-- Collaborator call events observed by the mocks of spec section 8. -/
inductive Ev where
  | initPrompt (request : String)
  | getPrompt (h : String)
  | completeCall
  | streamCall
  | storePrompt
deriving DecidableEq

/-- Modelled from the spec: `parse_hashes` from the missing devchat.utils
parses the optional hash-list input into normalized hash identifiers; `None`
becomes the empty list. -/
def parse_hashes : Option (List String) → List String
  | none => []
  | some l => l

/-- Modelled from the spec: `Chat.init_prompt(request)` produces a new empty
Prompt for the request (spec sections 2 and 6); the model and user identity
come from the Chat configuration, fixed here. -/
def init_prompt (_request : String) : Prompt :=
  { model := "model", user_name := "user", user_email := "user@example.com",
    instruct := [], request := none, new_context := [], responses := [],
    history_context := [], history_chat := [], parent := none,
    references := [], timestamp := some 0, request_tokens := 0,
    response_tokens := 0, hash := none, parents := [] }

/-- Modelled from the spec: the concrete prompt's message-append operation
invoked by `Assistant.make_prompt` (assistant.py lines 45 and 51; the
concrete subclass is not under src/).  Per spec section 4.2 it appends one
new message of the given kind to the corresponding new-message bucket. -/
def Prompt.append_message (p : Prompt) (kind content : String) : Prompt :=
  if kind == "instruct" then
    { p with instruct := p.instruct ++ [⟨"instruct", some content, none, none⟩] }
  else if kind == "context" then
    { p with new_context := p.new_context ++ [⟨"context", some content, none, none⟩] }
  else p

/-- Modelled from the spec: `set_request` sets the single request message for
the round, overwriting any prior value (spec section 4.1; abstract at
prompt.py lines 150-157). -/
def Prompt.set_request (p : Prompt) (content : String) : Prompt :=
  { p with request := some ⟨"request", some content, none, none⟩ }

/-- Modelled from the spec: `set_response` parses one complete backend
response payload and populates `responses` (spec section 4.1; abstract at
prompt.py lines 159-166).  The parsed payload is modelled as the list of
response messages it contains. -/
def Prompt.set_response (p : Prompt) (payload : List Message) : Prompt :=
  { p with responses := payload.map some }

/-- A streaming delta payload: either an incremental content fragment or the
end-of-stream marker carrying the finish reason. -/
inductive Chunk where
  | delta (content : String)
  | finish (reason : String)
deriving DecidableEq

/-- Modelled from the spec and the base-class contract (prompt.py lines
168-178): `append_response` appends the chunk's content to the in-progress
response at index 0 and returns the newly revealed fragment, or returns
`None` when the delta signals the end of the stream. -/
def Prompt.append_response (p : Prompt) (c : Chunk) : Prompt × Option String :=
  match c with
  | .delta s =>
    match p.responses with
    | [] => ({ p with responses := [some ⟨"response", some s, none, none⟩] }, some s)
    | some m :: t =>
      ({ p with responses := some { m with content := some ((m.content.getD ("")) ++ s) } :: t },
       some s)
    | none :: t => ({ p with responses := some ⟨"response", some s, none, none⟩ :: t }, some s)
  | .finish r =>
    match p.responses with
    | some m :: t => ({ p with responses := some { m with finish_reason := some r } :: t }, none)
    | _ => (p, none)

/-- The outcome of `Assistant.make_prompt`: the assistant's `_prompt`
attribute (assigned before hash resolution, so it is present even when
resolution fails), the collaborator calls made, and the propagated error, if
any. -/
structure MakeResult where
  prompt : Prompt
  events : List Ev
  error : Option String
deriving DecidableEq

/-- One resolution loop of `make_prompt` (assistant.py lines 37-40): each
hash is looked up in the Store and the result discarded; the first unknown
hash raises, ending the loop. -/
def resolveEvents (store : String → Option Prompt) : List String → List Ev × Bool
  | [] => ([], true)
  | h :: t =>
    match store h with
    | some _ =>
      let r := resolveEvents store t
      (.getPrompt h :: r.1, r.2)
    | none => ([.getPrompt h], false)

/-- Python truthiness of the optional string-list arguments of `make_prompt`:
`None` and the empty list are falsy. -/
def truthyStrList : Option (List String) → Bool
  | none => false
  | some [] => false
  | some (_ :: _) => true

/-- The `make_prompt` method (assistant.py lines 20-51): obtains a fresh
prompt from the Chat, assigns the parsed parent hashes to the `parents`
attribute and the reference hashes to the `references` field, validates each
hash against the Store (an unknown hash raises, aborting construction), then
appends the combined instruction message, sets the request, and appends each
context content as a separate context message. -/
def make_prompt (store : String → Option Prompt) (request : String)
    (instruct_contents context_contents parent reference : Option (List String)) :
    MakeResult :=
  let p1 := { init_prompt request with
              parents := parse_hashes parent,
              references := parse_hashes reference }
  let rp := resolveEvents store p1.parents
  if !rp.2 then
    ⟨p1, .initPrompt request :: rp.1, some ("Hash not found")⟩
  else
    let rr := resolveEvents store p1.references
    if !rr.2 then
      ⟨p1, .initPrompt request :: (rp.1 ++ rr.1), some ("Hash not found")⟩
    else
      let p2 := if truthyStrList instruct_contents then
          p1.append_message ("instruct") (String.join (instruct_contents.getD []))
        else p1
      let p3 := p2.set_request request
      let p4 := (context_contents.getD []).foldl (fun q c => q.append_message ("context") c) p3
      ⟨p4, .initPrompt request :: (rp.1 ++ rr.1), none⟩

/-- The outcome of one full run of the `iterate_responses` generator: the
yielded items in order (`none` models a yielded Python `None`), the raised
exception if the run did not finish, the prompt state, and the collaborator
calls. -/
structure IterResult where
  yields : List (Option String)
  error : Option PyErr
  prompt : Prompt
  events : List Ev
deriving DecidableEq

/-- The streaming chunk loop (assistant.py lines 61-62): each chunk is passed
to `append_response` and the returned value is yielded, whether or not it is
null. -/
def streamLoop (p : Prompt) : List Chunk → Prompt × List (Option String)
  | [] => (p, [])
  | c :: t =>
    let r := p.append_response c
    let rest := streamLoop r.1 t
    (rest.1, r.2 :: rest.2)

/-- Modelled from the spec: `Store.store_prompt` persists the prompt; per the
control flow of spec section 2, the hash is finalized through the Store. -/
def store_prompt (p : Prompt) : Prompt := (finalize_hash p).2

/-- The trailing formatted-response loop shared by both branches of
`iterate_responses` (assistant.py lines 65-66 and 71-72): each index is
formatted and concatenated with a newline; a `None` formatted response makes
`None + str` raise TypeError, and an IndexError propagates. -/
def formattedTail (p : Prompt) : List Nat → List (Option String) × Option PyErr
  | [] => ([], none)
  | i :: t =>
    match p.formatted_response (Int.ofNat i) with
    | .error e => ([], some e)
    | .ok none => ([], some .typeError)
    | .ok (some s) =>
      let r := formattedTail p t
      (some (s ++ "\n") :: r.1, r.2)

/-- The streaming branch of `iterate_responses` (assistant.py lines 59-66):
yields the `append_response` result for every chunk, persists the prompt,
yields the trailer line naming the prompt hash, then yields the formatted
text of every response beyond index 0. -/
def iterate_responses_stream (p : Prompt) (chunks : List Chunk) : IterResult :=
  let lr := streamLoop p chunks
  let ps := store_prompt lr.1
  let trailer := "\n\nprompt " ++ pyStr ps.hash ++ "\n"
  let tail := formattedTail ps ((List.range ps.responses.length).drop 1)
  { yields := lr.2 ++ some trailer :: tail.1,
    error := tail.2,
    prompt := ps,
    events := [.streamCall, .storePrompt] }

/-- Python attribute lookup `.keys()` applied to the list-valued `responses`
property (prompt.py lines 83-85 with the default factory at line 39): Python
lists have no `keys` method, so the lookup raises AttributeError. -/
def responsesKeys (_l : List (Option Message)) : Except PyErr (List Nat) :=
  .error (.attributeError ("keys"))

/-- The blocking branch of `iterate_responses` (assistant.py lines 67-72):
one synchronous completion call, `set_response`, persistence via the Store,
then iteration over `self._prompt.responses.keys()`. -/
def iterate_responses_blocking (p : Prompt) (completion : List Message) : IterResult :=
  let p1 := p.set_response completion
  let p2 := store_prompt p1
  match responsesKeys p2.responses with
  | .error e =>
    { yields := [], error := some e, prompt := p2,
      events := [.completeCall, .storePrompt] }
  | .ok ks =>
    let tail := formattedTail p2 ks
    { yields := tail.1, error := tail.2, prompt := p2,
      events := [.completeCall, .storePrompt] }

/-- The `iterate_responses` generator (assistant.py lines 53-72), branching
on the Chat's streaming configuration. -/
def iterate_responses (stream : Bool) (p : Prompt) (chunks : List Chunk)
    (completion : List Message) : IterResult :=
  if stream then iterate_responses_stream p chunks
  else iterate_responses_blocking p completion

/-- Numeric value of a decimal character list, used to invert `decChars`. -/
def decVal (l : List Char) : Nat := l.foldl (fun a c => 10 * a + (c.toNat - 48)) 0

/-- Inverse of `escChar` on the escape codes. -/
def unescChar (q e : Char) : Option Char :=
  if e = '\\' then some '\\'
  else if e = 'n' then some '\n'
  else if e = 'r' then some '\r'
  else if e = 't' then some '\t'
  else if e = q then some q
  else none

/-- Read characters until the unescaped closing quote, undoing `escChar`;
returns the decoded body and the remainder after the quote. -/
def unescape (q : Char) : List Char → Option (List Char × List Char)
  | [] => none
  | c :: rest =>
    if c = q then some ([], rest)
    else if c = '\\' then
      match rest with
      | [] => none
      | e :: rest2 =>
        match unescChar q e with
        | none => none
        | some d =>
          match unescape q rest2 with
          | none => none
          | some br => some (d :: br.1, br.2)
    else
      match unescape q rest with
      | none => none
      | some br => some (c :: br.1, br.2)

/-- Parse one Python string literal from the front of a character stream,
returning the decoded content and the rest of the stream. -/
def parseStrLit : List Char → Option (List Char × List Char)
  | [] => none
  | q :: rest => if q = '\'' || q = '"' then unescape q rest else none

/-- The identity-relevant dataclass fields of a Prompt: everything except the
derived `_hash` and the dynamically attached `parents`. -/
def identityFields (p : Prompt) :
    String × String × String × List Message × Option Message × List Message ×
    List (Option Message) × List Message × List Message × Option String ×
    List String × Option Nat × Nat × Nat :=
  (p.model, p.user_name, p.user_email, p.instruct, p.request, p.new_context,
   p.responses, p.history_context, p.history_chat, p.parent, p.references,
   p.timestamp, p.request_tokens, p.response_tokens)

/-- The string `shortlog` would contain under `responses` if the source built
a string rather than extending a list: the concatenation, over the responses,
of the text content (empty when null) and the function-call JSON rendering.
This follows the claim wording; the source instead produces the character
list of this string. -/
def responsesConcat (l : List (Option Message)) : String :=
  String.join (l.map (fun s =>
    match s with
    | some m => (m.content.getD ("")) ++ m.function_call_to_json
    | none => ""))

/-- A concrete complete response message for witnesses. -/
def msgA : Message := ⟨"response", some ("Fixed."), none, some ("stop")⟩

/-- A concrete complete Prompt for witnesses. -/
def promptBase : Prompt :=
  { model := "gpt-4", user_name := "Alice", user_email := "alice@example.com",
    instruct := [], request := some ⟨"request", some ("fix bug"), none, none⟩,
    new_context := [], responses := [some msgA], history_context := [],
    history_chat := [], parent := none, references := ["aaa", "bbb"],
    timestamp := some 1700000000, request_tokens := 7, response_tokens := 6,
    hash := none, parents := [] }

/-- The concrete Prompt with its responses removed, hence incomplete. -/
def promptIncomplete : Prompt := { promptBase with responses := [] }

/-- A Store that knows no hash. -/
def storeEmpty : String → Option Prompt := fun _ => none

/-- A Store that resolves exactly the hashes aaa and bbb. -/
def storeAB : String → Option Prompt := fun h =>
  if h = "aaa" || h = "bbb" then some (init_prompt ("x")) else none

theorem decVal_foldl (l : List Char) (a : Nat) :
    l.foldl (fun x c => 10 * x + (c.toNat - 48)) a = a * 10 ^ l.length + decVal l := by
  induction l generalizing a with
  | nil => simp [decVal]
  | cons c t ih =>
    have h1 := ih (10 * a + (c.toNat - 48))
    have h2 := ih (10 * 0 + (c.toNat - 48))
    simp only [decVal, List.foldl_cons, List.length_cons] at *
    rw [h1, h2]
    ring

theorem decVal_concat (l : List Char) (c : Char) :
    decVal (l ++ [c]) = 10 * decVal l + (c.toNat - 48) := by
  simp [decVal, List.foldl_append]

theorem digitChar_val (d : Nat) (h : d < 10) : (Nat.digitChar d).toNat - 48 = d := by
  interval_cases d <;> rfl

theorem decCharsGo_val : ∀ f m : Nat, m < f → decVal (decCharsGo f m) = m := by
  intro f
  induction f with
  | zero => intro m h; omega
  | succ f ih =>
    intro m h
    by_cases h10 : m < 10
    · simp [decCharsGo, h10, decVal, digitChar_val m h10]
    · have hge : 10 ≤ m := le_of_not_lt h10
      have hlt : m / 10 < f := by
        have := Nat.div_lt_self (show 0 < m by omega) (show 1 < 10 by omega)
        omega
      rw [decCharsGo, if_neg h10, decVal_concat, ih (m / 10) hlt,
        digitChar_val (m % 10) (Nat.mod_lt m (by omega))]
      omega

theorem decChars_injective (a b : Nat) (h : decChars a = decChars b) : a = b := by
  have ha := decCharsGo_val (a + 1) a (Nat.lt_succ_self a)
  have hb := decCharsGo_val (b + 1) b (Nat.lt_succ_self b)
  unfold decChars at h
  rw [h] at ha
  rw [hb] at ha
  exact ha.symm

theorem decCharsGo_digit : ∀ f m : Nat, ∀ c ∈ decCharsGo f m,
    ∃ d, d < 10 ∧ c = Nat.digitChar d := by
  intro f
  induction f with
  | zero => intro m c hc; simp [decCharsGo] at hc
  | succ f ih =>
    intro m c hc
    by_cases h10 : m < 10
    · rw [decCharsGo, if_pos h10] at hc
      simp at hc
      exact ⟨m, h10, hc⟩
    · rw [decCharsGo, if_neg h10] at hc
      rcases List.mem_append.mp hc with h | h
      · exact ih (m / 10) c h
      · simp at h
        exact ⟨m % 10, Nat.mod_lt m (by omega), h⟩

theorem decChars_ne_None (n : Nat) : decChars n ≠ toL ("None") := by
  intro h
  have hm : 'N' ∈ decChars n := by
    rw [h]
    decide
  obtain ⟨d, hd, hc⟩ := decCharsGo_digit (n + 1) n 'N' hm
  interval_cases d <;> exact absurd hc (by decide)

theorem pyQuote_cases (s : List Char) : pyQuote s = '\'' ∨ pyQuote s = '"' := by
  unfold pyQuote
  split
  · exact Or.inr rfl
  · exact Or.inl rfl

theorem unescape_quote (q : Char) (r : List Char) : unescape q (q :: r) = some ([], r) := by
  rw [unescape.eq_def]
  simp

theorem unescape_escaped (q e d : Char) (rest2 t r : List Char)
    (hbq : ¬ (('\\' : Char) = q)) (he : unescChar q e = some d)
    (hrec : unescape q rest2 = some (t, r)) :
    unescape q ('\\' :: e :: rest2) = some (d :: t, r) := by
  rw [unescape.eq_def]
  simp [hbq, he, hrec]

theorem unescape_plain (q c : Char) (rest t r : List Char) (h2 : ¬ c = q)
    (h1 : ¬ c = '\\') (hrec : unescape q rest = some (t, r)) :
    unescape q (c :: rest) = some (c :: t, r) := by
  rw [unescape.eq_def]
  simp [h1, h2, hrec]

theorem unescape_escBody (q : Char) (hq : q = '\'' ∨ q = '"') :
    ∀ s r : List Char, unescape q (escBody q s ++ q :: r) = some (s, r) := by
  have hqb : q ≠ '\\' := by rcases hq with rfl | rfl <;> decide
  have hbq : ¬ (('\\' : Char) = q) := fun h => hqb h.symm
  have hqn : q ≠ 'n' := by rcases hq with rfl | rfl <;> decide
  have hqr : q ≠ 'r' := by rcases hq with rfl | rfl <;> decide
  have hqt : q ≠ 't' := by rcases hq with rfl | rfl <;> decide
  have hnl : ¬ (('\n' : Char) = q) := by rcases hq with rfl | rfl <;> decide
  have hcr : ¬ (('\r' : Char) = q) := by rcases hq with rfl | rfl <;> decide
  have htb : ¬ (('\t' : Char) = q) := by rcases hq with rfl | rfl <;> decide
  intro s
  induction s with
  | nil => intro r; exact unescape_quote q r
  | cons c t ih =>
    intro r
    have hstream : escBody q (c :: t) ++ q :: r = escChar q c ++ (escBody q t ++ q :: r) := by
      simp [escBody, List.append_assoc]
    rw [hstream]
    by_cases h1 : c = '\\'
    · subst h1
      have hec : escChar q '\\' = ['\\', '\\'] := by simp [escChar]
      rw [hec]
      exact unescape_escaped q '\\' '\\' _ t r hbq (by simp [unescChar]) (ih r)
    · by_cases h2 : c = q
      · have hec : escChar q c = ['\\', q] := by simp [escChar, h1, h2, hqb]
        rw [hec, h2]
        exact unescape_escaped q q q _ t r hbq
          (by simp [unescChar, hqb, hqn, hqr, hqt]) (ih r)
      · by_cases h3 : c = '\n'
        · subst h3
          have hec : escChar q '\n' = ['\\', 'n'] := by simp [escChar, hnl]
          rw [hec]
          exact unescape_escaped q 'n' '\n' _ t r hbq (by simp [unescChar]) (ih r)
        · by_cases h4 : c = '\r'
          · subst h4
            have hec : escChar q '\r' = ['\\', 'r'] := by simp [escChar, hcr]
            rw [hec]
            exact unescape_escaped q 'r' '\r' _ t r hbq (by simp [unescChar]) (ih r)
          · by_cases h5 : c = '\t'
            · subst h5
              have hec : escChar q '\t' = ['\\', 't'] := by simp [escChar, htb]
              rw [hec]
              exact unescape_escaped q 't' '\t' _ t r hbq (by simp [unescChar]) (ih r)
            · have hec : escChar q c = [c] := by simp [escChar, h1, h2, h3, h4, h5]
              rw [hec]
              exact unescape_plain q c _ t r h2 h1 (ih r)

theorem parseStrLit_pyStrChars (s : String) (r : List Char) :
    parseStrLit (pyStrChars s ++ r) = some (s.data, r) := by
  have hq := pyQuote_cases s.data
  have hshape : pyStrChars s ++ r
      = pyQuote s.data :: (escBody (pyQuote s.data) s.data ++ pyQuote s.data :: r) := by
    simp [pyStrChars, List.append_assoc]
  rw [hshape]
  rcases hq with h | h <;>
    simp [parseStrLit, h, unescape_escBody (pyQuote s.data) (by rw [h]; simp) s.data r] <;>
    rw [← h] <;>
    exact unescape_escBody (pyQuote s.data) (by rw [h]; simp) s.data r

theorem pyStrChars_injective (s1 s2 : String) (h : pyStrChars s1 = pyStrChars s2) :
    s1 = s2 := by
  have h1 := parseStrLit_pyStrChars s1 []
  have h2 := parseStrLit_pyStrChars s2 []
  rw [List.append_nil] at h1 h2
  rw [h, h2] at h1
  simp at h1
  exact String.ext h1.symm

theorem sepJoin_pyStr_ne_nil (a : String) (t : List String) :
    sepJoin ((a :: t).map pyStrChars) ≠ [] := by
  cases t <;> simp [sepJoin, pyStrChars]

theorem pyStrList_inj : ∀ l1 l2 : List String,
    sepJoin (l1.map pyStrChars) = sepJoin (l2.map pyStrChars) → l1 = l2 := by
  intro l1
  induction l1 with
  | nil =>
    intro l2 h
    cases l2 with
    | nil => rfl
    | cons b t2 => exact absurd h.symm (sepJoin_pyStr_ne_nil b t2)
  | cons a t1 ih =>
    intro l2 h
    cases l2 with
    | nil => exact absurd h (sepJoin_pyStr_ne_nil a t1)
    | cons b t2 =>
      cases t1 with
      | nil =>
        cases t2 with
        | nil =>
          simp only [List.map_cons, List.map_nil, sepJoin] at h
          rw [pyStrChars_injective a b h]
        | cons c t2' =>
          exfalso
          simp only [List.map_cons, List.map_nil, sepJoin, List.append_assoc] at h
          have h1 := parseStrLit_pyStrChars a []
          rw [List.append_nil] at h1
          have h2 := parseStrLit_pyStrChars b
            (toL (", ") ++ sepJoin (pyStrChars c :: t2'.map pyStrChars))
          rw [h, h2] at h1
          have h3 := congrArg Prod.snd (Option.some.inj h1)
          exact absurd (List.append_eq_nil.mp h3).1 (by decide)
      | cons c t1' =>
        cases t2 with
        | nil =>
          exfalso
          simp only [List.map_cons, List.map_nil, sepJoin, List.append_assoc] at h
          have h1 := parseStrLit_pyStrChars b []
          rw [List.append_nil] at h1
          have h2 := parseStrLit_pyStrChars a
            (toL (", ") ++ sepJoin (pyStrChars c :: t1'.map pyStrChars))
          rw [← h, h2] at h1
          have h3 := congrArg Prod.snd (Option.some.inj h1)
          exact absurd (List.append_eq_nil.mp h3).1 (by decide)
        | cons d t2' =>
          simp only [List.map_cons, sepJoin, List.append_assoc] at h
          have h2a := parseStrLit_pyStrChars a
            (toL (", ") ++ sepJoin (pyStrChars c :: t1'.map pyStrChars))
          have h2b := parseStrLit_pyStrChars b
            (toL (", ") ++ sepJoin (pyStrChars d :: t2'.map pyStrChars))
          rw [h, h2b] at h2a
          have h5 := Option.some.inj h2a
          have hab : b = a := String.ext (congrArg Prod.fst h5)
          subst hab
          have htl := List.append_cancel_left (congrArg Prod.snd h5)
          have htails := ih (d :: t2') (by simpa [List.map_cons] using htl.symm)
          rw [htails]

theorem strListChars_injective (l1 l2 : List String)
    (h : strListChars l1 = strListChars l2) : l1 = l2 := by
  unfold strListChars at h
  have h2 := List.append_cancel_right (List.cons_injective h)
  exact pyStrList_inj l1 l2 h2

theorem sepJoin_extract : ∀ (l : List String) (f g : String → List Char) (k : String),
    l.Nodup → k ∈ l → (∀ j ∈ l, j ≠ k → f j = g j) →
    sepJoin (l.map f) = sepJoin (l.map g) → f k = g k := by
  intro l
  induction l with
  | nil => intro f g k _ hk; exact absurd hk (List.not_mem_nil k)
  | cons a t ih =>
    intro f g k hnd hk hother h
    by_cases hak : k = a
    · subst hak
      have hat : k ∉ t := (List.nodup_cons.mp hnd).1
      have htt : ∀ j ∈ t, f j = g j := by
        intro j hj
        exact hother j (List.mem_cons_of_mem _ hj) (fun hje => hat (hje ▸ hj))
      have hmap : t.map f = t.map g := List.map_congr_left htt
      cases t with
      | nil => simpa [sepJoin] using h
      | cons b t' =>
        simp only [List.map_cons, sepJoin] at h
        have hm2 : (f b :: t'.map f) = (g b :: t'.map g) := by
          simpa using hmap
        rw [← hm2] at h
        have h2 := List.append_cancel_right h
        exact List.append_cancel_right h2
    · have hkt : k ∈ t := by
        rcases List.mem_cons.mp hk with h1 | h1
        · exact absurd h1 hak
        · exact h1
      have hfa : f a = g a := hother a (List.mem_cons_self a t) (fun hae => hak hae.symm)
      cases t with
      | nil => exact absurd hkt (List.not_mem_nil k)
      | cons b t' =>
        simp only [List.map_cons, sepJoin] at h
        rw [hfa] at h
        have h2 := List.append_cancel_left h
        exact ih f g k (List.nodup_cons.mp hnd).2 hkt
          (fun j hj hne => hother j (List.mem_cons_of_mem _ hj) hne)
          (by simpa [List.map_cons] using h2)

theorem canonicalKeys_nodup : canonicalKeys.Nodup := by decide

theorem canonicalChars_extract (p1 p2 : Prompt) (k : String) (hk : k ∈ canonicalKeys)
    (hother : ∀ j ∈ canonicalKeys, j ≠ k → itemChars p1 j = itemChars p2 j)
    (h : canonicalChars p1 = canonicalChars p2) : fieldRepr p1 k = fieldRepr p2 k := by
  unfold canonicalChars at h
  have h1 := List.append_cancel_right (List.cons_injective h)
  have h2 := sepJoin_extract canonicalKeys (itemChars p1) (itemChars p2) k
    canonicalKeys_nodup hk hother h1
  unfold itemChars at h2
  have h3 := List.append_cancel_right (List.cons_injective h2)
  exact List.append_cancel_left h3

theorem check_complete_spec (p : Prompt) (hc : p.check_complete = true) :
    p.request.isSome = true ∧ p.responses ≠ [] ∧
      p.request_tokens ≠ 0 ∧ p.response_tokens ≠ 0 := by
  unfold Prompt.check_complete at hc
  split_ifs at hc with h1 h2
  simp only [Bool.or_eq_true, not_or, beq_iff_eq] at h1 h2
  refine ⟨?_, ?_, h2.1, h2.2⟩
  · cases hreq : p.request <;> simp_all
  · cases hres : p.responses <;> simp_all

theorem count_complete (p : Prompt) (hc : p.check_complete = true) :
    count_response_tokens p = p := by
  have h := (check_complete_spec p hc).2.2.2
  unfold count_response_tokens
  simp [h]

theorem finalize_fresh (p : Prompt) (hc : p.check_complete = true) (hh : p.hash = none) :
    finalize_hash p =
      (some (sha256hex (canonicalChars p)),
        { p with hash := some (sha256hex (canonicalChars p)) }) := by
  unfold finalize_hash
  simp [hc, hh, truthyOptStr, count_complete p hc]

theorem sha256hex_injective (l1 l2 : List Char) (h : sha256hex l1 = sha256hex l2) :
    l1 = l2 :=
  congrArg String.data h

theorem finalize_field_ne (p1 p2 : Prompt) (k : String) (hk : k ∈ canonicalKeys)
    (hc1 : p1.check_complete = true) (hc2 : p2.check_complete = true)
    (hh1 : p1.hash = none) (hh2 : p2.hash = none)
    (hother : ∀ j ∈ canonicalKeys, j ≠ k → itemChars p1 j = itemChars p2 j)
    (hne : fieldRepr p1 k ≠ fieldRepr p2 k) :
    (finalize_hash p1).1 ≠ (finalize_hash p2).1 := by
  intro h
  rw [finalize_fresh p1 hc1 hh1, finalize_fresh p2 hc2 hh2] at h
  simp only [Option.some.injEq] at h
  have hcc := sha256hex_injective _ _ h
  exact hne (canonicalChars_extract p1 p2 k hk hother hcc)

theorem fieldRepr_model (p : Prompt) : fieldRepr p ("model") = pyStrChars p.model := rfl

theorem fieldRepr_user_name (p : Prompt) :
    fieldRepr p ("user_name") = pyStrChars p.user_name := rfl

theorem fieldRepr_user_email (p : Prompt) :
    fieldRepr p ("user_email") = pyStrChars p.user_email := rfl

theorem fieldRepr_new_messages (p : Prompt) :
    fieldRepr p ("_new_messages") = newMessagesChars p := rfl

theorem fieldRepr_history_messages (p : Prompt) :
    fieldRepr p ("_history_messages") = histMessagesChars p := rfl

theorem fieldRepr_parent (p : Prompt) : fieldRepr p ("parent") = optStrChars p.parent := rfl

theorem fieldRepr_references (p : Prompt) :
    fieldRepr p ("references") = strListChars p.references := rfl

theorem fieldRepr_timestamp (p : Prompt) :
    fieldRepr p ("_timestamp") = optNatChars p.timestamp := rfl

theorem fieldRepr_request_tokens (p : Prompt) :
    fieldRepr p ("_request_tokens") = decChars p.request_tokens := rfl

theorem fieldRepr_response_tokens (p : Prompt) :
    fieldRepr p ("_response_tokens") = decChars p.response_tokens := rfl

theorem canonicalChars_congr (p1 p2 : Prompt)
    (hm : p1.model = p2.model) (hun : p1.user_name = p2.user_name)
    (hue : p1.user_email = p2.user_email) (hin : p1.instruct = p2.instruct)
    (hrq : p1.request = p2.request) (hcx : p1.new_context = p2.new_context)
    (hrs : p1.responses = p2.responses)
    (hhc : p1.history_context = p2.history_context)
    (hhch : p1.history_chat = p2.history_chat) (hpar : p1.parent = p2.parent)
    (href : p1.references = p2.references) (hts : p1.timestamp = p2.timestamp)
    (hreqt : p1.request_tokens = p2.request_tokens)
    (hrest : p1.response_tokens = p2.response_tokens) :
    canonicalChars p1 = canonicalChars p2 := by
  have hitem : ∀ k ∈ canonicalKeys, itemChars p1 k = itemChars p2 k := by
    intro k hk
    simp only [canonicalKeys, List.mem_cons, List.not_mem_nil, or_false] at hk
    rcases hk with rfl | rfl | rfl | rfl | rfl | rfl | rfl | rfl | rfl | rfl <;>
      simp [itemChars, fieldRepr_model, fieldRepr_user_name, fieldRepr_user_email,
        fieldRepr_new_messages, fieldRepr_history_messages, fieldRepr_parent,
        fieldRepr_references, fieldRepr_timestamp, fieldRepr_request_tokens,
        fieldRepr_response_tokens, newMessagesChars, histMessagesChars,
        hm, hun, hue, hin, hrq, hcx, hrs, hhc, hhch, hpar, href, hts, hreqt, hrest]
  unfold canonicalChars
  rw [List.map_congr_left hitem]

theorem count_spec (p : Prompt) :
    count_response_tokens p =
      { p with response_tokens :=
          if p.response_tokens == 0 then (p.responses.map msgTokens).sum
          else p.response_tokens } := by
  unfold count_response_tokens
  split <;> simp_all

theorem finalize_fst_of_hash_none (p : Prompt) (hh : p.hash = none) :
    (finalize_hash p).1 = some (sha256hex (canonicalChars (count_response_tokens p))) := by
  unfold finalize_hash
  have hself : ({ p with hash := none } : Prompt) = p := by rw [← hh]
  by_cases hc : p.check_complete = true
  · simp [hc, hh, truthyOptStr]
  · have hc2 : p.check_complete = false := by
      cases hcc : p.check_complete
      · rfl
      · exact absurd hcc hc
    simp [hc2, hself, hh, truthyOptStr]

theorem finalize_deterministic (p1 p2 : Prompt) (hh1 : p1.hash = none)
    (hh2 : p2.hash = none) (h : identityFields p1 = identityFields p2) :
    (finalize_hash p1).1 = (finalize_hash p2).1 := by
  unfold identityFields at h
  simp only [Prod.mk.injEq] at h
  obtain ⟨e1, e2, e3, e4, e5, e6, e7, e8, e9, e10, e11, e12, e13, e14⟩ := h
  rw [finalize_fst_of_hash_none p1 hh1, finalize_fst_of_hash_none p2 hh2,
    count_spec p1, count_spec p2]
  have hrt : (if p1.response_tokens == 0 then (p1.responses.map msgTokens).sum
        else p1.response_tokens)
      = (if p2.response_tokens == 0 then (p2.responses.map msgTokens).sum
        else p2.response_tokens) := by
    rw [e7, e14]
  exact congrArg some (congrArg sha256hex
    (canonicalChars_congr _ _ e1 e2 e3 e4 e5 e6 e7 e8 e9 e10 e11 e12 e13 hrt))

theorem optStrChars_injective : ∀ a b : Option String,
    optStrChars a = optStrChars b → a = b := by
  intro a b h
  cases a with
  | none =>
    cases b with
    | none => rfl
    | some s =>
      exfalso
      have hh := congrArg List.head? h
      have hNone : (optStrChars none).head? = some 'N' := rfl
      rw [hNone] at hh
      have hq := pyQuote_cases s.data
      rcases hq with hq | hq <;>
        · have hps : (optStrChars (some s)).head? = some (pyQuote s.data) := rfl
          rw [hps, hq] at hh
          exact absurd (Option.some.inj hh) (by decide)
  | some s =>
    cases b with
    | none =>
      exfalso
      have hh := congrArg List.head? h
      have hNone : (optStrChars none).head? = some 'N' := rfl
      rw [hNone] at hh
      have hq := pyQuote_cases s.data
      rcases hq with hq | hq <;>
        · have hps : (optStrChars (some s)).head? = some (pyQuote s.data) := rfl
          rw [hps, hq] at hh
          exact absurd (Option.some.inj hh) (by decide)
    | some s2 => rw [pyStrChars_injective s s2 h]

theorem optNatChars_injective : ∀ a b : Option Nat,
    optNatChars a = optNatChars b → a = b := by
  intro a b h
  cases a with
  | none =>
    cases b with
    | none => rfl
    | some n => exact absurd h.symm (decChars_ne_None n)
  | some n =>
    cases b with
    | none => exact absurd h (decChars_ne_None n)
    | some n2 => rw [decChars_injective n n2 h]

theorem msgChars_content (m1 m2 : Message) (ht : m1.type = m2.type)
    (hf : m1.function_call = m2.function_call) (hr : m1.finish_reason = m2.finish_reason)
    (h : msgChars m1 = msgChars m2) : m1.content = m2.content := by
  unfold msgChars at h
  rw [ht, hf, hr] at h
  simp only [List.append_assoc] at h
  have h1 := List.append_cancel_left h
  have h2 := List.append_cancel_left h1
  have h3 := List.append_cancel_left h2
  exact optStrChars_injective _ _ (List.append_cancel_right h3)

theorem newMessages_request (p1 p2 : Prompt)
    (hi : p1.instruct = p2.instruct) (hcx : p1.new_context = p2.new_context)
    (hrs : p1.responses = p2.responses)
    (h : newMessagesChars p1 = newMessagesChars p2) :
    optMsgChars p1.request = optMsgChars p2.request := by
  unfold newMessagesChars at h
  rw [hi, hcx, hrs] at h
  simp only [List.append_assoc] at h
  have h1 := List.append_cancel_left h
  have h2 := List.append_cancel_left h1
  have h3 := List.append_cancel_left h2
  exact List.append_cancel_right h3

theorem newMessages_responses (p1 p2 : Prompt)
    (hi : p1.instruct = p2.instruct) (hrq : p1.request = p2.request)
    (hcx : p1.new_context = p2.new_context)
    (h : newMessagesChars p1 = newMessagesChars p2) :
    optMsgListChars p1.responses = optMsgListChars p2.responses := by
  unfold newMessagesChars at h
  rw [hi, hrq, hcx] at h
  simp only [List.append_assoc] at h
  have h1 := List.append_cancel_left h
  have h2 := List.append_cancel_left h1
  have h3 := List.append_cancel_left h2
  have h4 := List.append_cancel_left h3
  have h5 := List.append_cancel_left h4
  have h6 := List.append_cancel_left h5
  have h7 := List.append_cancel_left h6
  exact List.append_cancel_right h7

theorem optMsgList_head_content (m1 m2 : Message) (t : List (Option Message))
    (ht : m1.type = m2.type) (hf : m1.function_call = m2.function_call)
    (hr : m1.finish_reason = m2.finish_reason)
    (h : optMsgListChars (some m1 :: t) = optMsgListChars (some m2 :: t)) :
    m1.content = m2.content := by
  unfold optMsgListChars at h
  have h1 := List.append_cancel_right (List.cons_injective h)
  cases t with
  | nil =>
    simp only [List.map_cons, List.map_nil, sepJoin, optMsgChars] at h1
    exact msgChars_content m1 m2 ht hf hr h1
  | cons x t' =>
    simp only [List.map_cons, sepJoin, optMsgChars] at h1
    have h2 := List.append_cancel_right h1
    have h3 := List.append_cancel_right h2
    exact msgChars_content m1 m2 ht hf hr h3

theorem string_mk_cons_isEmpty (c : Char) (l : List Char) :
    (String.mk (c :: l)).isEmpty = false := by
  rw [Bool.eq_false_iff]
  intro h
  rw [String.isEmpty_iff] at h
  have := congrArg String.data h
  simp at this

theorem sha_canonical_truthy (p : Prompt) :
    truthyOptStr (some (sha256hex (canonicalChars p))) = true := by
  have h : sha256hex (canonicalChars p)
      = String.mk ('(' :: (sepJoin (canonicalKeys.map (itemChars p)) ++ [')'])) := rfl
  rw [truthyOptStr, h, string_mk_cons_isEmpty]
  rfl

/-- C1: the claim states that `finalize_hash` on an incomplete Prompt (no
request, no responses, or a zero token count) sets the hash to null and
returns null.  The code contradicts its own docstring ("None if the prompt is
incomplete"): after `self._hash = None` it falls through the `if self._hash`
guard, recomputes, stores and returns a non-null SHA-256 digest.  On every
incomplete prompt the embedded `finalize_hash` returns a non-null hash and
leaves that hash on the prompt. -/
theorem c1_finalize_hash_incomplete_returns_hash (p : Prompt)
    (hc : p.check_complete = false) :
    ((finalize_hash p).1).isSome = true ∧
      ((finalize_hash p).2).hash = (finalize_hash p).1 := by
  unfold finalize_hash
  simp [hc, truthyOptStr]

/-- Witness for C1 at a concrete incomplete prompt (request set, responses
empty). -/
theorem c1_witness :
    promptIncomplete.check_complete = false ∧
      ((finalize_hash promptIncomplete).1).isSome = true ∧
      ((finalize_hash promptIncomplete).2).hash = (finalize_hash promptIncomplete).1 := by
  refine ⟨by decide, ?_⟩
  exact c1_finalize_hash_incomplete_returns_hash promptIncomplete (by decide)

/-- C7: `finalize_hash` is idempotent on a completed Prompt.  After one call,
a second call takes the cached early-return branch (`if self._hash:` is
truthy, so neither the token-count hook nor the digest is recomputed) and
returns the same hash with the state unchanged; the hash, once set, is never
changed by further `finalize_hash` calls. -/
theorem c7_finalize_hash_idempotent (p : Prompt) (hc : p.check_complete = true) :
    finalize_hash ((finalize_hash p).2) = ((finalize_hash p).1, (finalize_hash p).2) ∧
      ((finalize_hash p).2).check_complete = true ∧
      truthyOptStr ((finalize_hash p).2).hash = true := by
  by_cases ht : truthyOptStr p.hash = true
  · have h1 : finalize_hash p = (p.hash, p) := by
      unfold finalize_hash
      simp [hc, ht]
    rw [h1]
    refine ⟨?_, hc, ht⟩
    unfold finalize_hash
    simp [hc, ht]
  · have ht2 : truthyOptStr p.hash = false := by
      cases htt : truthyOptStr p.hash
      · rfl
      · exact absurd htt ht
    have h1 : finalize_hash p =
        (some (sha256hex (canonicalChars p)),
          { p with hash := some (sha256hex (canonicalChars p)) }) := by
      unfold finalize_hash
      simp [hc, ht2, count_complete p hc]
    rw [h1]
    have hc2 : ({ p with hash := some (sha256hex (canonicalChars p)) } : Prompt).check_complete
        = true := hc
    have ht3 : truthyOptStr
        ({ p with hash := some (sha256hex (canonicalChars p)) } : Prompt).hash = true :=
      sha_canonical_truthy p
    refine ⟨?_, hc2, ht3⟩
    unfold finalize_hash
    simp [hc2, ht3]

/-- Witness for C7 at a concrete complete prompt. -/
theorem c7_witness :
    finalize_hash ((finalize_hash promptBase).2)
        = ((finalize_hash promptBase).1, (finalize_hash promptBase).2) ∧
      ((finalize_hash promptBase).2).check_complete = true ∧
      truthyOptStr ((finalize_hash promptBase).2).hash = true :=
  c7_finalize_hash_idempotent promptBase (by decide)

theorem check_complete_intro (p : Prompt) (h1 : p.request.isSome = true)
    (h2 : p.responses ≠ []) (h3 : p.request_tokens ≠ 0) (h4 : p.response_tokens ≠ 0) :
    p.check_complete = true := by
  unfold Prompt.check_complete
  have hn : p.request.isNone = false := by
    cases hr : p.request
    · rw [hr] at h1; exact absurd h1 (by decide)
    · rfl
  have he : p.responses.isEmpty = false := by
    cases hr : p.responses
    · exact absurd hr h2
    · rfl
  simp [hn, he, h3, h4]

/-- C5: `finalize_hash` is deterministic and content-sensitive.  Two prompts
with identical identity fields (model, user identity, message content,
parent, references, timestamp, token counts) hash identically whatever their
`parents` attribute; the serialized form never reads the hash field, its keys
are the dataclass field names minus `_hash` sorted by name; and changing any
single identity field — the model, either user field, the request content, a
response content, the parent, the references list (including mere reordering),
the timestamp, or either non-zero token count — changes the hash.  SHA-256 is
idealized as an injective digest of the serialized form. -/
theorem c5_finalize_hash_deterministic_sensitive :
    (∀ p1 p2 : Prompt, p1.hash = none → p2.hash = none →
        identityFields p1 = identityFields p2 →
        (finalize_hash p1).1 = (finalize_hash p2).1)
    ∧ (∀ (p : Prompt) (h : Option String),
        canonicalChars { p with hash := h } = canonicalChars p)
    ∧ List.Sorted (fun a b : String => a.data < b.data) canonicalKeys
    ∧ "_hash" ∈ declFieldNames
    ∧ "_hash" ∉ canonicalKeys
    ∧ canonicalKeys.Perm (declFieldNames.erase ("_hash"))
    ∧ (∀ (p : Prompt) (v : String), p.check_complete = true → p.hash = none →
        v ≠ p.model →
        (finalize_hash { p with model := v }).1 ≠ (finalize_hash p).1)
    ∧ (∀ (p : Prompt) (v : String), p.check_complete = true → p.hash = none →
        v ≠ p.user_name →
        (finalize_hash { p with user_name := v }).1 ≠ (finalize_hash p).1)
    ∧ (∀ (p : Prompt) (v : String), p.check_complete = true → p.hash = none →
        v ≠ p.user_email →
        (finalize_hash { p with user_email := v }).1 ≠ (finalize_hash p).1)
    ∧ (∀ (p : Prompt) (m : Message) (v : Option String), p.check_complete = true →
        p.hash = none → p.request = some m → v ≠ m.content →
        (finalize_hash { p with request := some { m with content := v } }).1
          ≠ (finalize_hash p).1)
    ∧ (∀ (p : Prompt) (m : Message) (t : List (Option Message)) (v : Option String),
        p.check_complete = true → p.hash = none → p.responses = some m :: t →
        v ≠ m.content →
        (finalize_hash { p with responses := some { m with content := v } :: t }).1
          ≠ (finalize_hash p).1)
    ∧ (∀ (p : Prompt) (v : Option String), p.check_complete = true → p.hash = none →
        v ≠ p.parent →
        (finalize_hash { p with parent := v }).1 ≠ (finalize_hash p).1)
    ∧ (∀ (p : Prompt) (v : List String), p.check_complete = true → p.hash = none →
        v ≠ p.references →
        (finalize_hash { p with references := v }).1 ≠ (finalize_hash p).1)
    ∧ (∀ (p : Prompt) (v : Option Nat), p.check_complete = true → p.hash = none →
        v ≠ p.timestamp →
        (finalize_hash { p with timestamp := v }).1 ≠ (finalize_hash p).1)
    ∧ (∀ (p : Prompt) (v : Nat), p.check_complete = true → p.hash = none →
        v ≠ 0 → v ≠ p.request_tokens →
        (finalize_hash { p with request_tokens := v }).1 ≠ (finalize_hash p).1)
    ∧ (∀ (p : Prompt) (v : Nat), p.check_complete = true → p.hash = none →
        v ≠ 0 → v ≠ p.response_tokens →
        (finalize_hash { p with response_tokens := v }).1 ≠ (finalize_hash p).1) := by
  refine ⟨finalize_deterministic, ?_, ?_, by decide, by decide, by decide,
    ?_, ?_, ?_, ?_, ?_, ?_, ?_, ?_, ?_, ?_⟩
  · intro p h
    exact canonicalChars_congr _ _ rfl rfl rfl rfl rfl rfl rfl rfl rfl rfl rfl rfl rfl rfl
  · decide
  · intro p v hc hh hne
    refine finalize_field_ne _ _ ("model") (by decide) hc hc hh hh ?_ ?_
    · intro j hj hne2
      simp only [canonicalKeys, List.mem_cons, List.not_mem_nil, or_false] at hj
      rcases hj with rfl | rfl | rfl | rfl | rfl | rfl | rfl | rfl | rfl | rfl <;>
        first
        | exact absurd rfl hne2
        | rfl
    · intro heq
      rw [fieldRepr_model, fieldRepr_model] at heq
      exact hne (pyStrChars_injective _ _ heq)
  · intro p v hc hh hne
    refine finalize_field_ne _ _ ("user_name") (by decide) hc hc hh hh ?_ ?_
    · intro j hj hne2
      simp only [canonicalKeys, List.mem_cons, List.not_mem_nil, or_false] at hj
      rcases hj with rfl | rfl | rfl | rfl | rfl | rfl | rfl | rfl | rfl | rfl <;>
        first
        | exact absurd rfl hne2
        | rfl
    · intro heq
      rw [fieldRepr_user_name, fieldRepr_user_name] at heq
      exact hne (pyStrChars_injective _ _ heq)
  · intro p v hc hh hne
    refine finalize_field_ne _ _ ("user_email") (by decide) hc hc hh hh ?_ ?_
    · intro j hj hne2
      simp only [canonicalKeys, List.mem_cons, List.not_mem_nil, or_false] at hj
      rcases hj with rfl | rfl | rfl | rfl | rfl | rfl | rfl | rfl | rfl | rfl <;>
        first
        | exact absurd rfl hne2
        | rfl
    · intro heq
      rw [fieldRepr_user_email, fieldRepr_user_email] at heq
      exact hne (pyStrChars_injective _ _ heq)
  · intro p m v hc hh hrq hne
    have f := check_complete_spec p hc
    have hc1 : ({ p with request := some { m with content := v } } : Prompt).check_complete
        = true := check_complete_intro _ rfl f.2.1 f.2.2.1 f.2.2.2
    refine finalize_field_ne _ _ ("_new_messages") (by decide) hc1 hc hh hh ?_ ?_
    · intro j hj hne2
      simp only [canonicalKeys, List.mem_cons, List.not_mem_nil, or_false] at hj
      rcases hj with rfl | rfl | rfl | rfl | rfl | rfl | rfl | rfl | rfl | rfl <;>
        first
        | exact absurd rfl hne2
        | rfl
    · intro heq
      rw [fieldRepr_new_messages, fieldRepr_new_messages] at heq
      have h2 := newMessages_request { p with request := some { m with content := v } } p
        rfl rfl rfl heq
      rw [hrq] at h2
      exact hne (msgChars_content { m with content := v } m rfl rfl rfl h2)
  · intro p m t v hc hh hrs hne
    have f := check_complete_spec p hc
    have hc1 : ({ p with responses := some { m with content := v } :: t } : Prompt).check_complete
        = true := check_complete_intro _ f.1 (by simp) f.2.2.1 f.2.2.2
    refine finalize_field_ne _ _ ("_new_messages") (by decide) hc1 hc hh hh ?_ ?_
    · intro j hj hne2
      simp only [canonicalKeys, List.mem_cons, List.not_mem_nil, or_false] at hj
      rcases hj with rfl | rfl | rfl | rfl | rfl | rfl | rfl | rfl | rfl | rfl <;>
        first
        | exact absurd rfl hne2
        | rfl
    · intro heq
      rw [fieldRepr_new_messages, fieldRepr_new_messages] at heq
      have h2 := newMessages_responses
        { p with responses := some { m with content := v } :: t } p rfl rfl rfl heq
      rw [hrs] at h2
      exact hne (optMsgList_head_content { m with content := v } m t rfl rfl rfl h2)
  · intro p v hc hh hne
    refine finalize_field_ne _ _ ("parent") (by decide) hc hc hh hh ?_ ?_
    · intro j hj hne2
      simp only [canonicalKeys, List.mem_cons, List.not_mem_nil, or_false] at hj
      rcases hj with rfl | rfl | rfl | rfl | rfl | rfl | rfl | rfl | rfl | rfl <;>
        first
        | exact absurd rfl hne2
        | rfl
    · intro heq
      rw [fieldRepr_parent, fieldRepr_parent] at heq
      exact hne (optStrChars_injective _ _ heq)
  · intro p v hc hh hne
    refine finalize_field_ne _ _ ("references") (by decide) hc hc hh hh ?_ ?_
    · intro j hj hne2
      simp only [canonicalKeys, List.mem_cons, List.not_mem_nil, or_false] at hj
      rcases hj with rfl | rfl | rfl | rfl | rfl | rfl | rfl | rfl | rfl | rfl <;>
        first
        | exact absurd rfl hne2
        | rfl
    · intro heq
      rw [fieldRepr_references, fieldRepr_references] at heq
      exact hne (strListChars_injective _ _ heq)
  · intro p v hc hh hne
    refine finalize_field_ne _ _ ("_timestamp") (by decide) hc hc hh hh ?_ ?_
    · intro j hj hne2
      simp only [canonicalKeys, List.mem_cons, List.not_mem_nil, or_false] at hj
      rcases hj with rfl | rfl | rfl | rfl | rfl | rfl | rfl | rfl | rfl | rfl <;>
        first
        | exact absurd rfl hne2
        | rfl
    · intro heq
      rw [fieldRepr_timestamp, fieldRepr_timestamp] at heq
      exact hne (optNatChars_injective _ _ heq)
  · intro p v hc hh hv hne
    have f := check_complete_spec p hc
    have hc1 : ({ p with request_tokens := v } : Prompt).check_complete = true :=
      check_complete_intro _ f.1 f.2.1 hv f.2.2.2
    refine finalize_field_ne _ _ ("_request_tokens") (by decide) hc1 hc hh hh ?_ ?_
    · intro j hj hne2
      simp only [canonicalKeys, List.mem_cons, List.not_mem_nil, or_false] at hj
      rcases hj with rfl | rfl | rfl | rfl | rfl | rfl | rfl | rfl | rfl | rfl <;>
        first
        | exact absurd rfl hne2
        | rfl
    · intro heq
      rw [fieldRepr_request_tokens, fieldRepr_request_tokens] at heq
      exact hne (decChars_injective _ _ heq)
  · intro p v hc hh hv hne
    have f := check_complete_spec p hc
    have hc1 : ({ p with response_tokens := v } : Prompt).check_complete = true :=
      check_complete_intro _ f.1 f.2.1 f.2.2.1 hv
    refine finalize_field_ne _ _ ("_response_tokens") (by decide) hc1 hc hh hh ?_ ?_
    · intro j hj hne2
      simp only [canonicalKeys, List.mem_cons, List.not_mem_nil, or_false] at hj
      rcases hj with rfl | rfl | rfl | rfl | rfl | rfl | rfl | rfl | rfl | rfl <;>
        first
        | exact absurd rfl hne2
        | rfl
    · intro heq
      rw [fieldRepr_response_tokens, fieldRepr_response_tokens] at heq
      exact hne (decChars_injective _ _ heq)

/-- Witness for C5: at concrete prompts, the hash ignores the `parents`
attribute, changing the model changes the hash, and swapping the order of
the two references changes the hash. -/
theorem c5_witness :
    (finalize_hash promptBase).1
        = (finalize_hash { promptBase with parents := ["zzz"] }).1 ∧
      (finalize_hash { promptBase with model := "gpt-3" }).1 ≠ (finalize_hash promptBase).1 ∧
      (finalize_hash { promptBase with references := ["bbb", "aaa"] }).1
        ≠ (finalize_hash promptBase).1 := by
  obtain ⟨hdet, _, _, _, _, _, hmodel, _, _, _, _, _, href, _, _, _⟩ :=
    c5_finalize_hash_deterministic_sensitive
  refine ⟨?_, ?_, ?_⟩
  · exact hdet promptBase { promptBase with parents := ["zzz"] } rfl rfl rfl
  · exact hmodel promptBase ("gpt-3") (by decide) rfl (by decide)
  · exact href promptBase (["bbb", "aaa"]) (by decide) rfl (by decide)

/-- C2: the claim states that blocking mode issues one completion call, sets
the response, persists via the Store, and then yields the formatted text of
every response index including 0.  The code does call `set_response` and
`store_prompt`, but the final loop iterates `self._prompt.responses.keys()`
although the `responses` property returns a Python list (prompt.py lines
83-85, default factory line 39); lists have no `keys` method, so the
generator raises AttributeError on its first step and yields nothing, for
every prompt and every completion payload. -/
theorem c2_blocking_mode_attribute_error (p : Prompt) (chunks : List Chunk)
    (completion : List Message) :
    (iterate_responses false p chunks completion).yields = [] ∧
      (iterate_responses false p chunks completion).error
        = some (PyErr.attributeError ("keys")) ∧
      (iterate_responses false p chunks completion).prompt
        = store_prompt (p.set_response completion) ∧
      (iterate_responses false p chunks completion).events
        = [Ev.completeCall, Ev.storePrompt] :=
  ⟨rfl, rfl, rfl, rfl⟩

/-- Counterexample for C4: with backend chunks Hel, lo and an end-of-stream
delta, the streaming iteration does not yield only the two non-null
fragments before the trailer; it yields the null returned by
`append_response` for the final delta as a third item, the trailer being the
fourth and last. -/
theorem c4_counterexample :
    (iterate_responses true (init_prompt ("q"))
        [Chunk.delta ("Hel"), Chunk.delta ("lo"), Chunk.finish ("stop")] []).yields.take 3
      = [some ("Hel"), some ("lo"), none] ∧
      (iterate_responses true (init_prompt ("q"))
        [Chunk.delta ("Hel"), Chunk.delta ("lo"), Chunk.finish ("stop")] []).yields.length
      = 4 := by
  constructor
  · decide
  · decide

theorem finalize_responses (p : Prompt) :
    ((finalize_hash p).2).responses = p.responses := by
  simp only [finalize_hash]
  split_ifs <;> simp [count_spec]

theorem streamLoop_cons (q : Prompt) (ch : Chunk) (rest : List Chunk) :
    streamLoop q (ch :: rest)
      = ((streamLoop (q.append_response ch).1 rest).1,
         (q.append_response ch).2 :: (streamLoop (q.append_response ch).1 rest).2) := rfl

theorem streamLoop_append (p : Prompt) (l1 l2 : List Chunk) :
    streamLoop p (l1 ++ l2)
      = ((streamLoop (streamLoop p l1).1 l2).1,
         (streamLoop p l1).2 ++ (streamLoop (streamLoop p l1).1 l2).2) := by
  induction l1 generalizing p with
  | nil => simp [streamLoop]
  | cons c t ih => simp [streamLoop, ih]

theorem streamLoop_singleton : ∀ (cs : List String) (p : Prompt) (m : Message),
    p.responses = [some m] →
    ∃ m2, streamLoop p (cs.map Chunk.delta) = ({ p with responses := [some m2] }, cs.map some) := by
  intro cs
  induction cs with
  | nil =>
    intro p m hresp
    refine ⟨m, ?_⟩
    have hp : ({ p with responses := [some m] } : Prompt) = p := by
      rw [← hresp]
    rw [hp]
    rfl
  | cons c t ih =>
    intro p m hresp
    have hstep : p.append_response (Chunk.delta c)
        = ({ p with responses := [some { m with content := some ((m.content.getD ("")) ++ c) }] },
           some c) := by
      unfold Prompt.append_response
      rw [hresp]
    obtain ⟨m2, hm2⟩ := ih ({ p with responses :=
      [some { m with content := some ((m.content.getD ("")) ++ c) }] }) _ rfl
    refine ⟨m2, ?_⟩
    simp only [List.map_cons, streamLoop, hstep, hm2]

/-- C4 (amended): in streaming mode `iterate_responses` yields the
`append_response` result for every chunk, nulls included.  Starting from a
prompt with no responses, for deltas c1..cn followed by the end-of-stream
chunk the iteration yields some c1, ..., some cn, then the null returned for
the end-of-stream delta, then the trailer line, with no further formatted
blocks (only response 0 exists, already streamed) and no error. -/
theorem c4_stream_yields_every_append_result (p : Prompt) (cs : List String)
    (reason : String) (hresp : p.responses = []) :
    (iterate_responses true p (cs.map Chunk.delta ++ [Chunk.finish reason]) []).yields
      = cs.map some ++ [none,
          some ("\n\nprompt "
            ++ pyStr ((iterate_responses true p
                (cs.map Chunk.delta ++ [Chunk.finish reason]) []).prompt).hash
            ++ "\n")] ∧
      (iterate_responses true p (cs.map Chunk.delta ++ [Chunk.finish reason]) []).error
        = none := by
  cases cs with
  | nil =>
    have hfin : p.append_response (Chunk.finish reason) = (p, none) := by
      unfold Prompt.append_response
      rw [hresp]
    have hloop : streamLoop p (([] : List String).map Chunk.delta ++ [Chunk.finish reason])
        = (p, [none]) := by
      simp [streamLoop, hfin]
    have hlen : (store_prompt p).responses.length = 0 := by
      unfold store_prompt
      rw [finalize_responses, hresp]
      rfl
    have hres : iterate_responses true p
        (([] : List String).map Chunk.delta ++ [Chunk.finish reason]) []
        = { yields := [none, some ("\n\nprompt " ++ pyStr (store_prompt p).hash ++ "\n")],
            error := none,
            prompt := store_prompt p,
            events := [Ev.streamCall, Ev.storePrompt] } := by
      unfold iterate_responses iterate_responses_stream
      simp only [if_true, hloop]
      rw [hlen]
      simp [formattedTail]
    rw [hres]
    simp
  | cons c t =>
    have hstep0 : p.append_response (Chunk.delta c)
        = ({ p with responses := [some ⟨"response", some c, none, none⟩] }, some c) := by
      unfold Prompt.append_response
      rw [hresp]
    obtain ⟨m2, hm2⟩ := streamLoop_singleton t
      ({ p with responses := [some ⟨"response", some c, none, none⟩] }) _ rfl
    have hloop : streamLoop p ((c :: t).map Chunk.delta ++ [Chunk.finish reason])
        = ({ p with responses := [some { m2 with finish_reason := some reason }] },
           (c :: t).map some ++ [none]) := by
      rw [show (c :: t).map Chunk.delta ++ [Chunk.finish reason]
          = Chunk.delta c :: (t.map Chunk.delta ++ [Chunk.finish reason]) from rfl]
      rw [streamLoop_cons, hstep0]
      dsimp only
      rw [streamLoop_append, hm2]
      simp [streamLoop_cons, streamLoop, Prompt.append_response]
    have hlen : (store_prompt
        { p with responses := [some { m2 with finish_reason := some reason }] }).responses.length
        = 1 := by
      unfold store_prompt
      rw [finalize_responses]
      rfl
    have hres : iterate_responses true p ((c :: t).map Chunk.delta ++ [Chunk.finish reason]) []
        = { yields := ((c :: t).map some ++ [none])
              ++ [some ("\n\nprompt "
                  ++ pyStr (store_prompt
                      { p with responses := [some { m2 with finish_reason := some reason }] }).hash
                  ++ "\n")],
            error := none,
            prompt := store_prompt
              { p with responses := [some { m2 with finish_reason := some reason }] },
            events := [Ev.streamCall, Ev.storePrompt] } := by
      unfold iterate_responses iterate_responses_stream
      simp only [if_true, hloop]
      rw [hlen]
      simp [formattedTail]
    rw [hres]
    simp

/-- Witness for C4 at the concrete scenario-C inputs. -/
theorem c4_witness :
    (iterate_responses true (init_prompt ("q"))
        ((["Hel", "lo"]).map Chunk.delta ++ [Chunk.finish ("stop")]) []).yields
      = (["Hel", "lo"]).map some ++ [none,
          some ("\n\nprompt "
            ++ pyStr ((iterate_responses true (init_prompt ("q"))
                ((["Hel", "lo"]).map Chunk.delta ++ [Chunk.finish ("stop")]) []).prompt).hash
            ++ "\n")] ∧
      (iterate_responses true (init_prompt ("q"))
        ((["Hel", "lo"]).map Chunk.delta ++ [Chunk.finish ("stop")]) []).error = none :=
  c4_stream_yields_every_append_result (init_prompt ("q")) (["Hel", "lo"]) ("stop") rfl

theorem resolveEvents_ok (store : String → Option Prompt) :
    ∀ l : List String, (resolveEvents store l).2 = true ↔ ∀ x ∈ l, (store x).isSome = true := by
  intro l
  induction l with
  | nil => simp [resolveEvents]
  | cons h t ih =>
    cases hs : store h with
    | none =>
      simp [resolveEvents, hs]
    | some q =>
      simp only [resolveEvents, hs]
      constructor
      · intro hok x hx
        rcases List.mem_cons.mp hx with rfl | hx2
        · simp [hs]
        · exact (ih.mp hok) x hx2
      · intro hall
        exact ih.mpr (fun x hx => hall x (List.mem_cons_of_mem _ hx))

theorem resolveEvents_shape (store : String → Option Prompt) :
    ∀ l : List String, ∀ e ∈ (resolveEvents store l).1, ∃ x, e = Ev.getPrompt x := by
  intro l
  induction l with
  | nil => simp [resolveEvents]
  | cons h t ih =>
    intro e he
    cases hs : store h with
    | none =>
      rw [resolveEvents, hs] at he
      simp at he
      exact ⟨h, he⟩
    | some q =>
      rw [resolveEvents, hs] at he
      simp at he
      rcases he with rfl | he2
      · exact ⟨h, rfl⟩
      · exact ih e he2

/-- Counterexample for C3: with an empty Store and an unresolvable parent
hash, `make_prompt` does fail, but only after `Chat.init_prompt` has been
called — the failure does not happen before every Chat call as the claim
states. -/
theorem c3_counterexample :
    (make_prompt storeEmpty ("hi") none none (some ["h1"]) none).error.isSome = true ∧
      Ev.initPrompt ("hi") ∈ (make_prompt storeEmpty ("hi") none none (some ["h1"]) none).events := by
  constructor
  · decide
  · decide

/-- C3 (amended): when a parent or reference hash cannot be resolved,
`make_prompt` fails and aborts prompt construction before any backend
completion call and before the prompt is populated — but after the Chat's
`init_prompt` has been called, which is the first event of the run; every
event of the failed run is that `init_prompt` call or a Store lookup. -/
theorem c3_make_prompt_fails_after_init (store : String → Option Prompt)
    (request : String) (ic cc par ref : Option (List String))
    (hbad : ∃ x ∈ parse_hashes par ++ parse_hashes ref, store x = none) :
    (make_prompt store request ic cc par ref).error.isSome = true ∧
      (make_prompt store request ic cc par ref).events.head?
        = some (Ev.initPrompt request) ∧
      (∀ e ∈ (make_prompt store request ic cc par ref).events,
        e = Ev.initPrompt request ∨ ∃ x, e = Ev.getPrompt x) ∧
      Ev.completeCall ∉ (make_prompt store request ic cc par ref).events ∧
      Ev.streamCall ∉ (make_prompt store request ic cc par ref).events ∧
      Ev.storePrompt ∉ (make_prompt store request ic cc par ref).events ∧
      (make_prompt store request ic cc par ref).prompt.request = none ∧
      (make_prompt store request ic cc par ref).prompt.instruct = [] ∧
      (make_prompt store request ic cc par ref).prompt.new_context = [] := by
  obtain ⟨x, hx, hnone⟩ := hbad
  have hnotboth : ¬ ((resolveEvents store (parse_hashes par)).2 = true ∧
      (resolveEvents store (parse_hashes ref)).2 = true) := by
    rintro ⟨hp, hr⟩
    rcases List.mem_append.mp hx with hx1 | hx2
    · have := (resolveEvents_ok store (parse_hashes par)).mp hp x hx1
      rw [hnone] at this
      exact absurd this (by decide)
    · have := (resolveEvents_ok store (parse_hashes ref)).mp hr x hx2
      rw [hnone] at this
      exact absurd this (by decide)
  have hshape := resolveEvents_shape store (parse_hashes par)
  have hshape2 := resolveEvents_shape store (parse_hashes ref)
  unfold make_prompt
  cases hp : (resolveEvents store (parse_hashes par)).2 with
  | false =>
    simp only [hp, Bool.not_false, if_true]
    refine ⟨rfl, rfl, ?_, ?_, ?_, ?_, rfl, rfl, rfl⟩
    · intro e he
      rcases List.mem_cons.mp he with rfl | he2
      · exact Or.inl rfl
      · exact Or.inr (hshape e he2)
    · intro hmem
      rcases List.mem_cons.mp hmem with heq | he2
      · exact Ev.noConfusion heq
      · obtain ⟨y, hy⟩ := hshape _ he2
        exact Ev.noConfusion hy
    · intro hmem
      rcases List.mem_cons.mp hmem with heq | he2
      · exact Ev.noConfusion heq
      · obtain ⟨y, hy⟩ := hshape _ he2
        exact Ev.noConfusion hy
    · intro hmem
      rcases List.mem_cons.mp hmem with heq | he2
      · exact Ev.noConfusion heq
      · obtain ⟨y, hy⟩ := hshape _ he2
        exact Ev.noConfusion hy
  | true =>
    have hr : (resolveEvents store (parse_hashes ref)).2 = false := by
      cases hrr : (resolveEvents store (parse_hashes ref)).2
      · rfl
      · exact absurd ⟨hp, hrr⟩ hnotboth
    simp only [hp, hr, Bool.not_true, Bool.not_false, if_false, if_true]
    refine ⟨rfl, rfl, ?_, ?_, ?_, ?_, rfl, rfl, rfl⟩
    · intro e he
      rcases List.mem_cons.mp he with rfl | he2
      · exact Or.inl rfl
      · rcases List.mem_append.mp he2 with h3 | h3
        · exact Or.inr (hshape e h3)
        · exact Or.inr (hshape2 e h3)
    · intro hmem
      rcases List.mem_cons.mp hmem with heq | he2
      · exact Ev.noConfusion heq
      · rcases List.mem_append.mp he2 with h3 | h3
        · obtain ⟨y, hy⟩ := hshape _ h3
          exact Ev.noConfusion hy
        · obtain ⟨y, hy⟩ := hshape2 _ h3
          exact Ev.noConfusion hy
    · intro hmem
      rcases List.mem_cons.mp hmem with heq | he2
      · exact Ev.noConfusion heq
      · rcases List.mem_append.mp he2 with h3 | h3
        · obtain ⟨y, hy⟩ := hshape _ h3
          exact Ev.noConfusion hy
        · obtain ⟨y, hy⟩ := hshape2 _ h3
          exact Ev.noConfusion hy
    · intro hmem
      rcases List.mem_cons.mp hmem with heq | he2
      · exact Ev.noConfusion heq
      · rcases List.mem_append.mp he2 with h3 | h3
        · obtain ⟨y, hy⟩ := hshape _ h3
          exact Ev.noConfusion hy
        · obtain ⟨y, hy⟩ := hshape2 _ h3
          exact Ev.noConfusion hy

/-- Witness for C3 (amended) at concrete inputs. -/
theorem c3_witness :
    (make_prompt storeEmpty ("hi") none none (some ["h1"]) none).error.isSome = true ∧
      (make_prompt storeEmpty ("hi") none none (some ["h1"]) none).events.head?
        = some (Ev.initPrompt ("hi")) ∧
      (∀ e ∈ (make_prompt storeEmpty ("hi") none none (some ["h1"]) none).events,
        e = Ev.initPrompt ("hi") ∨ ∃ x, e = Ev.getPrompt x) ∧
      Ev.completeCall ∉ (make_prompt storeEmpty ("hi") none none (some ["h1"]) none).events ∧
      Ev.streamCall ∉ (make_prompt storeEmpty ("hi") none none (some ["h1"]) none).events ∧
      Ev.storePrompt ∉ (make_prompt storeEmpty ("hi") none none (some ["h1"]) none).events ∧
      (make_prompt storeEmpty ("hi") none none (some ["h1"]) none).prompt.request = none ∧
      (make_prompt storeEmpty ("hi") none none (some ["h1"]) none).prompt.instruct = [] ∧
      (make_prompt storeEmpty ("hi") none none (some ["h1"]) none).prompt.new_context = [] :=
  c3_make_prompt_fails_after_init storeEmpty ("hi") none none (some ["h1"]) none
    ⟨"h1", by decide, rfl⟩

theorem foldl_context_instruct : ∀ (cl : List String) (q : Prompt),
    (cl.foldl (fun q c => q.append_message ("context") c) q).instruct = q.instruct := by
  intro cl
  induction cl with
  | nil => intro q; rfl
  | cons c t ih => intro q; exact ih (q.append_message ("context") c)

theorem foldl_context_parent : ∀ (cl : List String) (q : Prompt),
    (cl.foldl (fun q c => q.append_message ("context") c) q).parent = q.parent := by
  intro cl
  induction cl with
  | nil => intro q; rfl
  | cons c t ih => intro q; exact ih (q.append_message ("context") c)

theorem foldl_context_parents : ∀ (cl : List String) (q : Prompt),
    (cl.foldl (fun q c => q.append_message ("context") c) q).parents = q.parents := by
  intro cl
  induction cl with
  | nil => intro q; rfl
  | cons c t ih => intro q; exact ih (q.append_message ("context") c)

/-- C8: when `instruct_contents` is a non-empty list and resolution succeeds,
`make_prompt` appends exactly one instruction message to the prompt, whose
content is the concatenation of all given instruction strings in order. -/
theorem c8_make_prompt_single_instruction (store : String → Option Prompt)
    (request : String) (l : List String) (cc par ref : Option (List String))
    (hl : l ≠ [])
    (hok : (make_prompt store request (some l) cc par ref).error = none) :
    (make_prompt store request (some l) cc par ref).prompt.instruct
      = [⟨"instruct", some (String.join l), none, none⟩] := by
  have htr : truthyStrList (some l) = true := by
    cases l with
    | nil => exact absurd rfl hl
    | cons a t => rfl
  unfold make_prompt at hok ⊢
  cases hp : (resolveEvents store (parse_hashes par)).2 with
  | false =>
    simp [hp] at hok
  | true =>
    cases hr : (resolveEvents store (parse_hashes ref)).2 with
    | false =>
      simp [hp, hr] at hok
    | true =>
      simp only [hp, hr, Bool.not_true, Bool.false_eq_true, if_false]
      rw [foldl_context_instruct]
      simp [htr, Prompt.append_message, Prompt.set_request, init_prompt]

/-- Witness for C8 at concrete inputs. -/
theorem c8_witness :
    (make_prompt storeAB ("fix bug") (some ["be ", "concise"]) (some ["ctx"])
        (some ["aaa"]) none).prompt.instruct
      = [⟨"instruct", some (String.join ["be ", "concise"]), none, none⟩] :=
  c8_make_prompt_single_instruction storeAB ("fix bug") (["be ", "concise"])
    (some ["ctx"]) (some ["aaa"]) none (by decide) (by decide)

theorem finalize_parent (p : Prompt) : ((finalize_hash p).2).parent = p.parent := by
  simp only [finalize_hash]
  split_ifs <;> simp [count_spec]

theorem make_prompt_parent_fields (store : String → Option Prompt) (request : String)
    (ic cc par ref : Option (List String)) :
    (make_prompt store request ic cc par ref).prompt.parent = none ∧
      (make_prompt store request ic cc par ref).prompt.parents = parse_hashes par := by
  unfold make_prompt
  cases hp : (resolveEvents store (parse_hashes par)).2 with
  | false => simp [hp, init_prompt]
  | true =>
    cases hr : (resolveEvents store (parse_hashes ref)).2 with
    | false => simp [hp, hr, init_prompt]
    | true =>
      simp only [hp, hr, Bool.not_true, Bool.false_eq_true, if_false]
      constructor
      · rw [foldl_context_parent]
        cases ht : truthyStrList ic <;>
          simp [ht, Prompt.append_message, Prompt.set_request, init_prompt]
      · rw [foldl_context_parents]
        cases ht : truthyStrList ic <;>
          simp [ht, Prompt.append_message, Prompt.set_request, init_prompt]

/-- C10: `make_prompt` never writes the Prompt's `parent` field — the parsed
parent hashes go to the separate `parents` attribute — so after any
`make_prompt` call the `parent` field still holds its initial null value,
and after any subsequent `set_response` both `finalize_hash` (through the
serialized `parent` item) and `shortlog` (through its `parent` entry) see a
null parent, whatever parent hashes were supplied. -/
theorem c10_make_prompt_parent_null (store : String → Option Prompt) (request : String)
    (ic cc par ref : Option (List String)) (ms : List Message) :
    (make_prompt store request ic cc par ref).prompt.parent = none ∧
      (make_prompt store request ic cc par ref).prompt.parents = parse_hashes par ∧
      (((make_prompt store request ic cc par ref).prompt.set_response ms)).parent = none ∧
      ((finalize_hash ((make_prompt store request ic cc par ref).prompt.set_response ms)).2).parent
        = none ∧
      fieldRepr ((make_prompt store request ic cc par ref).prompt.set_response ms) ("parent")
        = toL ("None") ∧
      (∀ e, ((make_prompt store request ic cc par ref).prompt.set_response ms).shortlog
          = Except.ok e → e.parent = none) := by
  obtain ⟨h1, h2⟩ := make_prompt_parent_fields store request ic cc par ref
  have h3 : (((make_prompt store request ic cc par ref).prompt.set_response ms)).parent
      = none := h1
  refine ⟨h1, h2, h3, ?_, ?_, ?_⟩
  · rw [finalize_parent]
    exact h3
  · rw [fieldRepr_parent, h3]
    rfl
  · intro e he
    generalize hq : ((make_prompt store request ic cc par ref).prompt.set_response ms) = q at he h3
    unfold Prompt.shortlog at he
    by_cases hcond : (q.request.isNone || q.responses.isEmpty) = true
    · rw [if_pos hcond] at he
      exact Except.noConfusion he
    · rw [if_neg hcond] at he
      cases hsr : shortlogResponses q.responses with
      | error err =>
        rw [hsr] at he
        exact Except.noConfusion he
      | ok cs =>
        rw [hsr] at he
        have h5 := Except.ok.inj he
        rw [← h5]
        exact h3

/-- Witness for C10 at concrete inputs. -/
theorem c10_witness :
    (make_prompt storeAB ("q") none none (some ["aaa"]) (some ["bbb"])).prompt.parent = none ∧
      (make_prompt storeAB ("q") none none (some ["aaa"]) (some ["bbb"])).prompt.parents
        = parse_hashes (some ["aaa"]) ∧
      ((make_prompt storeAB ("q") none none (some ["aaa"]) (some ["bbb"])).prompt.set_response
        [msgA]).parent = none ∧
      ((finalize_hash ((make_prompt storeAB ("q") none none (some ["aaa"])
        (some ["bbb"])).prompt.set_response [msgA])).2).parent = none ∧
      fieldRepr ((make_prompt storeAB ("q") none none (some ["aaa"])
        (some ["bbb"])).prompt.set_response [msgA]) ("parent") = toL ("None") ∧
      (∀ e, ((make_prompt storeAB ("q") none none (some ["aaa"])
          (some ["bbb"])).prompt.set_response [msgA]).shortlog = Except.ok e →
        e.parent = none) :=
  c10_make_prompt_parent_null storeAB ("q") none none (some ["aaa"]) (some ["bbb"]) [msgA]

theorem pyIndex_get (l : List (Option Message)) (i : Int) (k : Nat) (hk : k < l.length)
    (hval : (if i < 0 then i + l.length else i) = (k : Int)) :
    pyIndex l i = Except.ok (l.get ⟨k, hk⟩) := by
  simp only [pyIndex, hval]
  rw [dif_pos ⟨Int.ofNat_nonneg k, by simpa [Int.toNat_natCast] using hk⟩]
  simp [Int.toNat_natCast]

/-- C9: `formatted_response`'s only range check is
`index >= len(self.responses)`, so a negative index such as -1 is not
rejected: with at least one response whose last slot is set, the call with -1
returns the formatted text of the response counted from the end — the same
text as for index `len - 1` — rather than null. -/
theorem c9_formatted_response_negative_index (p : Prompt) (m : Message)
    (hne : p.responses ≠ [])
    (hlast : p.responses[p.responses.length - 1]? = some (some m)) :
    p.formatted_response (-1)
        = p.formatted_response (((p.responses.length - 1 : Nat) : Int)) ∧
      (∃ s, p.formatted_response (-1) = Except.ok (some s)) := by
  have hlen : 0 < p.responses.length := List.length_pos.mpr hne
  have hk : p.responses.length - 1 < p.responses.length := by omega
  have h1 := pyIndex_get p.responses (-1) (p.responses.length - 1) hk
    (by
      rw [if_pos (by omega : (-1 : Int) < 0)]
      omega)
  have h2 := pyIndex_get p.responses (((p.responses.length - 1 : Nat) : Int))
    (p.responses.length - 1) hk
    (by rw [if_neg (by omega : ¬ (((p.responses.length - 1 : Nat) : Int) < 0))])
  have hget : p.responses.get ⟨p.responses.length - 1, hk⟩ = some m := by
    have hg := List.getElem?_eq_getElem hk
    rw [hg] at hlast
    have := Option.some.inj hlast
    rw [List.get_eq_getElem]
    exact this
  have h1' : pyIndex p.responses (-1) = Except.ok (some m) := by
    rw [h1]
    exact congrArg Except.ok hget
  have h2' : pyIndex p.responses (((p.responses.length - 1 : Nat) : Int))
      = Except.ok (some m) := by
    rw [h2]
    exact congrArg Except.ok hget
  have hif1 : ¬ ((-1 : Int) ≥ (p.responses.length : Int)) := by
    omega
  have hif2 : ¬ ((((p.responses.length - 1 : Nat) : Int)) ≥ (p.responses.length : Int)) := by
    omega
  constructor
  · unfold Prompt.formatted_response
    rw [if_neg hif1, if_neg hif2, h1', h2']
  · unfold Prompt.formatted_response
    rw [if_neg hif1, h1']
    exact ⟨_, rfl⟩

/-- Witness for C9 at a concrete prompt with one (truthy) response. -/
theorem c9_witness :
    promptBase.formatted_response (-1)
        = promptBase.formatted_response (((promptBase.responses.length - 1 : Nat) : Int)) ∧
      (∃ s, promptBase.formatted_response (-1) = Except.ok (some s)) :=
  c9_formatted_response_negative_index promptBase msgA (by decide) (by decide)

theorem string_foldl_data (l : List String) : ∀ s : String,
    (l.foldl (· ++ ·) s).data = s.data ++ (l.map String.data).flatten := by
  induction l with
  | nil => intro s; simp
  | cons a t ih =>
    intro s
    simp only [List.foldl_cons, ih, List.map_cons, List.flatten_cons, String.data_append,
      List.append_assoc]

theorem string_join_data (l : List String) :
    (String.join l).data = (l.map String.data).flatten := by
  have h := string_foldl_data l ""
  simpa [String.join] using h

theorem responsesConcat_cons_data (m : Message) (t : List (Option Message)) :
    (responsesConcat (some m :: t)).data
      = ((m.content.getD ("")) ++ m.function_call_to_json).data
        ++ (responsesConcat t).data := by
  unfold responsesConcat
  rw [string_join_data, string_join_data]
  simp

theorem shortlogResponses_ok : ∀ l : List (Option Message),
    (∀ s ∈ l, s.isSome = true) →
    shortlogResponses l = Except.ok ((responsesConcat l).data) := by
  intro l
  induction l with
  | nil => intro _; rfl
  | cons s t ih =>
    intro hall
    cases s with
    | none => exact absurd (hall none (List.mem_cons_self _ _)) (by decide)
    | some m =>
      have ht := ih (fun x hx => hall x (List.mem_cons_of_mem _ hx))
      simp only [shortlogResponses, ht, responsesConcat_cons_data]

/-- C6: the claim states the shortlog's `responses` entry is the
concatenation, over the responses, of the text content (empty when null) and
the function-call JSON rendering, alongside the user, date, context,
request, token counts, hash and parent entries.  The code builds that entry
with `+=` on a Python list, so what `shortlog` actually returns under
`responses` is the list of the individual characters of that concatenation,
not the concatenated string; every other entry is as described. -/
theorem c6_shortlog_responses_char_list (p : Prompt) (hreq : p.request.isSome = true)
    (hne : p.responses ≠ []) (hall : ∀ s ∈ p.responses, s.isSome = true) :
    p.shortlog = Except.ok
      { user := user_id p.user_name p.user_email,
        date := p.timestamp,
        context := p.new_context,
        request := p.request.bind Message.content,
        responses := (responsesConcat p.responses).data,
        request_tokens := p.request_tokens,
        response_tokens := p.response_tokens,
        hash := p.hash,
        parent := p.parent } := by
  unfold Prompt.shortlog
  have hn : p.request.isNone = false := (Option.isNone_eq_false_iff p.request).mpr hreq
  have he : p.responses.isEmpty = false := by
    cases hr : p.responses
    · exact absurd hr hne
    · rfl
  rw [if_neg (by simp [hn, he])]
  rw [shortlogResponses_ok p.responses hall]

/-- Witness for C6 at a concrete prompt whose single response has content
"Fixed.": the responses entry is the six-element character list, the
character data of the concatenated string. -/
theorem c6_witness :
    promptBase.shortlog = Except.ok
      { user := user_id promptBase.user_name promptBase.user_email,
        date := promptBase.timestamp,
        context := promptBase.new_context,
        request := promptBase.request.bind Message.content,
        responses := (responsesConcat promptBase.responses).data,
        request_tokens := promptBase.request_tokens,
        response_tokens := promptBase.response_tokens,
        hash := promptBase.hash,
        parent := promptBase.parent } ∧
      (responsesConcat promptBase.responses).data = ['F', 'i', 'x', 'e', 'd', '.'] :=
  ⟨c6_shortlog_responses_char_list promptBase (by decide) (by decide) (by decide),
    by decide⟩

end DevChat
